import Mathlib

/-!
Verification of the gocafe REST API (src/main.go): an in-memory user store
behind an HTTP dispatcher with three handlers (List, Get, Create).

Shallow embedding conventions:
* HTTP methods and URL paths are lists of characters.
* The Go map `map[string]user` is an association list with distinct keys
  (`Store`); `storeGet` and `storePut` embed map lookup and map assignment.
* The anchored regexes `^\/users[\/]*$` and `^\/users\/(\d+)$` are embedded
  as `listUsersReMatch` / `createUserReMatch` and `getUserReCapture`
  (Go `\d` matches exactly the ASCII digits, as does `Char.isDigit`).
* Request bodies reach Create only through `json.Decode`, embedded as an
  `Option user` (`none` = malformed or wrong-shape body, decode error).
* `json.Marshal` on the `user` struct and on `[]user` cannot fail, so the
  marshal step is total; a response body is either marshalled JSON
  (`Body.userJson` / `Body.usersJson`) or the literal bytes written by an
  error helper (`Body.raw`).
* A handler run yields an `Outcome`: the ordered list of response writes
  (`WriteEv.status` for WriteHeader, `WriteEv.write` for Write) plus the
  store afterwards; `aborted = true` embeds a Go runtime panic
  (index out of range) cutting the handler short.
-/

/-- A user record: `type user struct { ID, Name string }`. -/
structure user where
  id : List Char
  name : List Char
deriving DecidableEq, Repr

/-- The store mapping `map[string]user`, as an association list. -/
abbrev Store := List (List Char × user)

/-- Go maps have pairwise distinct keys. -/
def StoreWF (s : Store) : Prop := (s.map (fun e => e.1)).Nodup

/-- Map lookup `h.store.m[k]`. -/
def storeGet (s : Store) (k : List Char) : Option user :=
  (s.find? (fun e => e.1 == k)).map (fun e => e.2)

/-- Map assignment `h.store.m[u.ID] = u`: overwrite the entry at the key
if present, otherwise add one. -/
def storePut : Store → user → Store
  | [], u => [(u.id, u)]
  | (k, v) :: rest, u =>
      if k == u.id then (u.id, u) :: rest else (k, v) :: storePut rest u

/-- The values of the mapping, as ranged over by `for _, u := range h.store.m`. -/
def storeValues (s : Store) : List user := s.map (fun e => e.2)

/-- The characters of the literal `/users`. -/
def usersPath : List Char := ['/', 'u', 's', 'e', 'r', 's']

/-- The characters of the literal `/users/`. -/
def usersSlashPath : List Char := ['/', 'u', 's', 'e', 'r', 's', '/']

/-- Embeds `listUsersRe.MatchString p` for `listUsersRe = ^\/users[\/]*$`:
the path starts with `/users` and everything after is slashes. -/
def listUsersReMatch (p : List Char) : Bool :=
  (p.take 6 == usersPath) && (p.drop 6).all (fun c => c == '/')

/-- Embeds `createUserRe`, the same pattern `^\/users[\/]*$`. -/
def createUserReMatch (p : List Char) : Bool :=
  (p.take 6 == usersPath) && (p.drop 6).all (fun c => c == '/')

/-- The capture group of `getUserRe = ^\/users\/(\d+)$`: the path is
`/users/` followed by one or more ASCII digits, which form the group. -/
def getUserReCapture (p : List Char) : Option (List Char) :=
  if (p.take 7 == usersSlashPath) && !(p.drop 7).isEmpty
      && (p.drop 7).all Char.isDigit
  then some (p.drop 7) else none

/-- Embeds `getUserRe.MatchString p`. -/
def getUserReMatch (p : List Char) : Bool := (getUserReCapture p).isSome

/-- Embeds `getUserRe.FindStringSubmatch p`: `nil` when the path does not match,
otherwise the full match followed by the one capture group. -/
def findStringSubmatch (p : List Char) : List (List Char) :=
  match getUserReCapture p with
  | some ds => [p, ds]
  | none => []

/-- A response body: marshalled JSON of a record or a slice, or the
literal bytes an error helper writes. -/
inductive Body where
  | userJson (u : user)
  | usersJson (us : List user)
  | raw (s : List Char)
deriving DecidableEq, Repr

/-- One write on the ResponseWriter: `WriteHeader(code)` or `Write(body)`. -/
inductive WriteEv where
  | status (code : Nat)
  | write (b : Body)
deriving DecidableEq, Repr

/-- The bytes of `badRequest`: `{"error" : "bad request"}`. -/
def badRequestBody : List Char :=
  ("\x7b\"error\" : \"bad request\"\x7d").toList

/-- The bytes of `notFound`: `{"error" : "not found"}`. -/
def notFoundBody : List Char :=
  ("\x7b\"error\" : \"not found\"\x7d").toList

/-- The bytes of `internalServerError`: `{"error" : "interval server error"}`
(so spelled in the source). -/
def internalServerErrorBody : List Char :=
  ("\x7b\"error\" : \"interval server error\"\x7d").toList

/-- The writes of `badRequest(w, r)`. -/
def badRequestEvents : List WriteEv :=
  [WriteEv.status 400, WriteEv.write (Body.raw badRequestBody)]

/-- The writes of `notFound(w, r)`. -/
def notFoundEvents : List WriteEv :=
  [WriteEv.status 404, WriteEv.write (Body.raw notFoundBody)]

/-- The writes of `internalServerError(w, r)`. -/
def internalServerErrorEvents : List WriteEv :=
  [WriteEv.status 500, WriteEv.write (Body.raw internalServerErrorBody)]

/-- The result of running a handler: the ordered response writes, the store
afterwards, and whether the run ended in a runtime panic. -/
structure Outcome where
  events : List WriteEv
  store : Store
  aborted : Bool
deriving DecidableEq, Repr

/-- Embeds `userHandler.List`: copy the map values, marshal, 200. -/
def listHandler (store : Store) : Outcome :=
  let users := storeValues store
  { events := [WriteEv.status 200, WriteEv.write (Body.usersJson users)]
    store := store
    aborted := false }

/-- Embeds `userHandler.Get`: extract the submatch; on fewer than two groups the
source calls `notFound` WITHOUT returning, then indexes `matches[1]`,
which is out of range (`aborted`). Otherwise look up the captured key. -/
def getHandler (path : List Char) (store : Store) : Outcome :=
  let ms := findStringSubmatch path
  let evs := if ms.length < 2 then notFoundEvents else []
  match ms.get? 1 with
  | none => { events := evs, store := store, aborted := true }
  | some key =>
      match storeGet store key with
      | none =>
          { events := evs ++ notFoundEvents, store := store, aborted := false }
      | some u =>
          { events := evs ++ [WriteEv.status 200, WriteEv.write (Body.userJson u)]
            store := store
            aborted := false }

/-- Embeds `userHandler.Create`: decode the body (`none` = decode error → 400,
no mutation); otherwise store the record at its own id and echo it. -/
def createHandler (body : Option user) (store : Store) : Outcome :=
  match body with
  | none => { events := badRequestEvents, store := store, aborted := false }
  | some u =>
      { events := [WriteEv.status 200, WriteEv.write (Body.userJson u)]
        store := storePut store u
        aborted := false }

/-- The characters of the method literal `GET`. -/
def methodGET : List Char := ['G', 'E', 'T']

/-- The characters of the method literal `POST`. -/
def methodPOST : List Char := ['P', 'O', 'S', 'T']

/-- Which arm of the `switch` in `userHandler.ServeHTTP` fires. -/
inductive Route where
  | list
  | get
  | create
  | notFound
deriving DecidableEq, Repr

/-- The `switch` of `userHandler.ServeHTTP`, in source order. -/
def route (method path : List Char) : Route :=
  if method = methodGET ∧ listUsersReMatch path = true then Route.list
  else if method = methodGET ∧ getUserReMatch path = true then Route.get
  else if method = methodPOST ∧ createUserReMatch path = true then Route.create
  else Route.notFound

/-- Embeds `userHandler.ServeHTTP`: dispatch to the matched handler, or respond
not-found. -/
def serveHTTP (method path : List Char) (body : Option user) (store : Store) :
    Outcome :=
  match route method path with
  | Route.list => listHandler store
  | Route.get => getHandler path store
  | Route.create => createHandler body store
  | Route.notFound => { events := notFoundEvents, store := store, aborted := false }


/-!
Lock discipline (claim C9): each handler's accesses to the shared mapping
and to the reader/writer lock, in source order, as an event trace.
-/

/-- One access to the store's mapping or lock. -/
inductive StoreEv where
  | readLen
  | rlockAcq
  | readIter
  | rlockRel
  | lockAcq
  | writeMap
  | lockRel
  | readKey
deriving DecidableEq, Repr

/-- Embeds `userHandler.List`: `len(h.store.m)` (for the slice capacity), then
`RLock`, the `range` iteration, `RUnlock`. -/
def listStoreTrace : List StoreEv :=
  [StoreEv.readLen, StoreEv.rlockAcq, StoreEv.readIter, StoreEv.rlockRel]

/-- Embeds `userHandler.Get`: `RLock`, the key lookup, `RUnlock`. -/
def getStoreTrace : List StoreEv :=
  [StoreEv.rlockAcq, StoreEv.readKey, StoreEv.rlockRel]

/-- Embeds `userHandler.Create` (after a successful decode): `Lock`, the map
assignment, `Unlock`. -/
def createStoreTrace : List StoreEv :=
  [StoreEv.lockAcq, StoreEv.writeMap, StoreEv.lockRel]

/-- The lock state of one request's trace. -/
inductive LockSt where
  | free
  | shared
  | excl
deriving DecidableEq, Repr

/-- Checks a trace against the discipline of the claim: reads of the
mapping (its size, an iteration step, a key lookup) only under the shared
lock, writes only under the exclusive lock, acquire/release well paired. -/
def lockOk : LockSt → List StoreEv → Bool
  | _, [] => true
  | st, e :: rest =>
    match st, e with
    | LockSt.free, StoreEv.rlockAcq => lockOk LockSt.shared rest
    | LockSt.shared, StoreEv.rlockRel => lockOk LockSt.free rest
    | LockSt.free, StoreEv.lockAcq => lockOk LockSt.excl rest
    | LockSt.excl, StoreEv.lockRel => lockOk LockSt.free rest
    | LockSt.shared, StoreEv.readLen => lockOk LockSt.shared rest
    | LockSt.shared, StoreEv.readIter => lockOk LockSt.shared rest
    | LockSt.shared, StoreEv.readKey => lockOk LockSt.shared rest
    | LockSt.excl, StoreEv.writeMap => lockOk LockSt.excl rest
    | _, _ => false

/-- A trace respects the discipline when it checks out starting unlocked. -/
def lockDisciplineOk (tr : List StoreEv) : Bool := lockOk LockSt.free tr

/- Computation lemmas for the path matchers. -/

theorem take6_usersPath_append (t : List Char) :
    (usersPath ++ t).take 6 = usersPath := rfl

theorem drop6_usersPath_append (t : List Char) :
    (usersPath ++ t).drop 6 = t := rfl

theorem take6_usersSlash_append (t : List Char) :
    (usersSlashPath ++ t).take 6 = usersPath := rfl

theorem drop6_usersSlash_append (t : List Char) :
    (usersSlashPath ++ t).drop 6 = '/' :: t := rfl

theorem take7_usersSlash_append (t : List Char) :
    (usersSlashPath ++ t).take 7 = usersSlashPath := rfl

theorem drop7_usersSlash_append (t : List Char) :
    (usersSlashPath ++ t).drop 7 = t := rfl

/-- The pattern `^\/users[\/]*$` matches exactly `/users` followed by zero or more
slashes. -/
theorem listUsersReMatch_iff (p : List Char) :
    listUsersReMatch p = true ↔ ∃ n, p = usersPath ++ List.replicate n '/' := by
  constructor
  · intro h
    rw [listUsersReMatch, Bool.and_eq_true, beq_iff_eq] at h
    obtain ⟨h1, h2⟩ := h
    refine ⟨(p.drop 6).length, ?_⟩
    conv_lhs => rw [← List.take_append_drop 6 p]
    rw [h1]
    congr 1
    refine List.eq_replicate_length.mpr ?_
    intro b hb
    have := (List.all_eq_true.mp h2) b hb
    exact beq_iff_eq.mp this
  · rintro ⟨n, rfl⟩
    rw [listUsersReMatch, take6_usersPath_append, drop6_usersPath_append]
    simp [List.all_eq_true, List.eq_of_mem_replicate]

/-- The capture of `^\/users\/(\d+)$` is `ds` exactly when the path is
`/users/` + `ds` with `ds` a nonempty digit string. -/
theorem getUserReCapture_eq_some_iff (p ds : List Char) :
    getUserReCapture p = some ds ↔
      ds ≠ [] ∧ ds.all Char.isDigit = true ∧ p = usersSlashPath ++ ds := by
  constructor
  · intro h
    rw [getUserReCapture] at h
    split at h
    · rename_i hc
      rw [Bool.and_eq_true, Bool.and_eq_true, beq_iff_eq] at hc
      obtain ⟨⟨h1, h2⟩, h3⟩ := hc
      obtain rfl : p.drop 7 = ds := by injection h
      refine ⟨?_, h3, ?_⟩
      · intro hnil
        rw [hnil] at h2
        simp at h2
      · conv_lhs => rw [← List.take_append_drop 7 p]
        rw [h1]
    · exact absurd h (by simp)
  · rintro ⟨h1, h2, rfl⟩
    rw [getUserReCapture, take7_usersSlash_append, drop7_usersSlash_append]
    simp [h1, h2]

/-- A digit character is not a slash. -/
theorem digit_ne_slash {c : Char} (h : c.isDigit = true) : (c == '/') = false := by
  by_contra hne
  rw [Bool.not_eq_false, beq_iff_eq] at hne
  subst hne
  exact absurd h (by decide)

/-- A path of the Get shape (`/users/` + nonempty digits) does not match
the List/Create pattern. -/
theorem listUsersReMatch_digits_false {ds : List Char} (h1 : ds ≠ [])
    (h2 : ds.all Char.isDigit = true) :
    listUsersReMatch (usersSlashPath ++ ds) = false := by
  rw [listUsersReMatch, take6_usersSlash_append, drop6_usersSlash_append]
  cases ds with
  | nil => exact absurd rfl h1
  | cons c t =>
    rw [List.all_cons, Bool.and_eq_true] at h2
    simp [digit_ne_slash h2.1]

/-- The two patterns `listUsersRe` and `createUserRe` are the same. -/
theorem createUserReMatch_eq_list (p : List Char) :
    createUserReMatch p = listUsersReMatch p := rfl

/- Store lemmas. -/

/-- After `m[u.ID] = u`, the first entry with key `u.ID` is `u`. -/
theorem find?_storePut_self (s : Store) (u : user) :
    (storePut s u).find? (fun e => e.1 == u.id) = some (u.id, u) := by
  induction s with
  | nil => simp [storePut, List.find?]
  | cons hd tl ih =>
    obtain ⟨k, v⟩ := hd
    by_cases hk : k = u.id
    · simp [storePut, hk, List.find?]
    · simp [storePut, hk, List.find?, ih]

/-- Map lookup after map assignment at the same key returns the record. -/
theorem storeGet_storePut_self (s : Store) (u : user) :
    storeGet (storePut s u) u.id = some u := by
  rw [storeGet, find?_storePut_self]
  rfl

/-- A key that is not among the mapping keys selects no entry. -/
theorem filter_key_eq_nil (s : Store) (k : List Char)
    (h : k ∉ s.map (fun e => e.1)) :
    s.filter (fun e => e.1 == k) = [] := by
  induction s with
  | nil => rfl
  | cons hd tl ih =>
    obtain ⟨k2, v⟩ := hd
    rw [List.map_cons, List.mem_cons] at h
    push_neg at h
    have hne : (k2 == k) = false := by
      rw [beq_eq_false_iff_ne]
      exact fun he => h.1 he.symm
    simp [List.filter, hne, ih h.2]

/-- With distinct keys, map assignment leaves exactly one entry at the key. -/
theorem filter_key_storePut (s : Store) (u : user) (h : StoreWF s) :
    ((storePut s u).filter (fun e => e.1 == u.id)).length = 1 := by
  induction s with
  | nil => simp [storePut, List.filter]
  | cons hd tl ih =>
    obtain ⟨k, v⟩ := hd
    rw [StoreWF, List.map_cons, List.nodup_cons] at h
    by_cases hk : k = u.id
    · subst hk
      have hfil : tl.filter (fun e => e.1 == u.id) = [] :=
        filter_key_eq_nil tl u.id h.1
      simp [storePut, List.filter_cons, hfil]
    · have hne : (k == u.id) = false := beq_eq_false_iff_ne.mpr hk
      simp [storePut, hk, List.filter_cons, hne, ih h.2]

/-- Every key of the mapping after assignment is an old key or the new one. -/
theorem mem_keys_storePut {x : List Char} (s : Store) (u : user)
    (h : x ∈ (storePut s u).map (fun e => e.1)) :
    x ∈ s.map (fun e => e.1) ∨ x = u.id := by
  induction s with
  | nil =>
    refine Or.inr ?_
    simp only [storePut, List.map_cons, List.map_nil, List.mem_cons,
      List.not_mem_nil, or_false] at h
    exact h
  | cons hd tl ih =>
    obtain ⟨k, v⟩ := hd
    by_cases hk : k = u.id
    · subst hk
      simp only [storePut, beq_self_eq_true, if_true, List.map_cons,
        List.mem_cons] at h ⊢
      rcases h with h | h
      · exact Or.inl (Or.inl h)
      · exact Or.inl (Or.inr h)
    · have hne : (k == u.id) = false := beq_eq_false_iff_ne.mpr hk
      simp only [storePut, hne, Bool.false_eq_true, if_false, List.map_cons,
        List.mem_cons] at h ⊢
      rcases h with h | h
      · exact Or.inl (Or.inl h)
      · rcases ih h with h2 | h2
        · exact Or.inl (Or.inr h2)
        · exact Or.inr h2

/-- Map assignment preserves distinctness of keys. -/
theorem storeWF_storePut (s : Store) (u : user) (h : StoreWF s) :
    StoreWF (storePut s u) := by
  induction s with
  | nil => simp [storePut, StoreWF]
  | cons hd tl ih =>
    obtain ⟨k, v⟩ := hd
    rw [StoreWF, List.map_cons, List.nodup_cons] at h
    by_cases hk : k = u.id
    · subst hk
      rw [StoreWF, storePut]
      simp only [beq_self_eq_true, if_pos, List.map_cons, List.nodup_cons]
      exact ⟨h.1, h.2⟩
    · rw [StoreWF, storePut]
      simp only [beq_iff_eq, hk, if_false, List.map_cons, List.nodup_cons]
      refine ⟨?_, ih h.2⟩
      intro hmem
      rcases mem_keys_storePut tl u hmem with h2 | h2
      · exact h.1 h2
      · exact hk h2

/-- The new record is among the mapping values after assignment. -/
theorem mem_storeValues_storePut (s : Store) (u : user) :
    u ∈ storeValues (storePut s u) := by
  induction s with
  | nil =>
    simp only [storePut, storeValues, List.map_cons, List.map_nil]
    exact List.mem_cons_self u []
  | cons hd tl ih =>
    obtain ⟨k, v⟩ := hd
    by_cases hk : k = u.id
    · subst hk
      simp only [storePut, beq_self_eq_true, if_true, storeValues,
        List.map_cons]
      exact List.mem_cons_self u _
    · have hne : (k == u.id) = false := beq_eq_false_iff_ne.mpr hk
      simp only [storePut, hne, Bool.false_eq_true, if_false, storeValues,
        List.map_cons]
      refine List.mem_cons_of_mem (k, v).2 ?_
      simpa only [storeValues] using ih

/- Dispatcher lemmas: which arm of the switch fires. -/

/-- The first arm: List fires exactly on GET with the list pattern. -/
theorem route_eq_list_iff (m p : List Char) :
    route m p = Route.list ↔ m = methodGET ∧ listUsersReMatch p = true := by
  constructor
  · intro h
    by_cases hc : m = methodGET ∧ listUsersReMatch p = true
    · exact hc
    · rw [route, if_neg hc] at h
      split at h
      · exact absurd h (by decide)
      · split at h
        · exact absurd h (by decide)
        · exact absurd h (by decide)
  · rintro ⟨h1, h2⟩
    rw [route, if_pos ⟨h1, h2⟩]

/-- The second arm: Get fires exactly on GET with the Get pattern when the
List pattern does not also match. -/
theorem route_eq_get_iff (m p : List Char) :
    route m p = Route.get ↔
      m = methodGET ∧ getUserReMatch p = true ∧ listUsersReMatch p = false := by
  constructor
  · intro h
    by_cases hc1 : m = methodGET ∧ listUsersReMatch p = true
    · rw [route, if_pos hc1] at h
      exact absurd h (by decide)
    · by_cases hc2 : m = methodGET ∧ getUserReMatch p = true
      · refine ⟨hc2.1, hc2.2, ?_⟩
        cases hl : listUsersReMatch p
        · rfl
        · exact absurd ⟨hc2.1, hl⟩ hc1
      · rw [route, if_neg hc1, if_neg hc2] at h
        split at h
        · exact absurd h (by decide)
        · exact absurd h (by decide)
  · rintro ⟨h1, h2, h3⟩
    have hneg : ¬(m = methodGET ∧ listUsersReMatch p = true) := by
      intro hc
      rw [h3] at hc
      exact Bool.false_ne_true hc.2
    rw [route, if_neg hneg, if_pos ⟨h1, h2⟩]

/-- The third arm: Create fires exactly on POST with the Create pattern. -/
theorem route_eq_create_iff (m p : List Char) :
    route m p = Route.create ↔
      m = methodPOST ∧ createUserReMatch p = true := by
  constructor
  · intro h
    rw [route] at h
    split at h
    · exact absurd h (by decide)
    · split at h
      · exact absurd h (by decide)
      · split at h
        · rename_i hc
          exact hc
        · exact absurd h (by decide)
  · rintro ⟨h1, h2⟩
    have hng : m ≠ methodGET := by
      rw [h1]
      decide
    rw [route, if_neg (fun hc => hng hc.1), if_neg (fun hc => hng hc.1),
      if_pos ⟨h1, h2⟩]

/- Claim theorems. -/

/-- C1, counterexample: the body `{id:"x", name:"y"}` is accepted by
Create (200, record stored), yet the subsequent GET of `/users/x` is
answered 404 by the dispatcher, not 200 with the record, because the Get
route only matches digit keys. -/
theorem c1_roundtrip_counterexample :
    (serveHTTP methodPOST usersPath (some ⟨['x'], ['y']⟩) []).events
        = [WriteEv.status 200, WriteEv.write (Body.userJson ⟨['x'], ['y']⟩)]
    ∧ (serveHTTP methodGET ['/', 'u', 's', 'e', 'r', 's', '/', 'x'] none
          ((serveHTTP methodPOST usersPath (some ⟨['x'], ['y']⟩) []).store)).events
        = notFoundEvents := by
  decide

/-- C1 (amended): for every accepted body `{id: S, name: T}` whose id `S`
is a nonempty string of decimal digits, a subsequent GET of `/users/S`
(with no intervening Create for `S`) returns 200 with exactly the record
`{id: S, name: T}`. -/
theorem c1_roundtrip_amended (S T : List Char) (store : Store)
    (h1 : S ≠ []) (h2 : S.all Char.isDigit = true) :
    (serveHTTP methodGET (usersSlashPath ++ S) none
        ((serveHTTP methodPOST usersPath (some ⟨S, T⟩) store).store)).events
      = [WriteEv.status 200, WriteEv.write (Body.userJson ⟨S, T⟩)] := by
  have hcreate : route methodPOST usersPath = Route.create :=
    (route_eq_create_iff _ _).mpr ⟨rfl, by decide⟩
  have hstore : (serveHTTP methodPOST usersPath (some ⟨S, T⟩) store).store
      = storePut store ⟨S, T⟩ := by
    simp only [serveHTTP, hcreate]
    rfl
  have hcap : getUserReCapture (usersSlashPath ++ S) = some S :=
    (getUserReCapture_eq_some_iff _ _).mpr ⟨h1, h2, rfl⟩
  have hget : route methodGET (usersSlashPath ++ S) = Route.get := by
    refine (route_eq_get_iff _ _).mpr
      ⟨rfl, ?_, listUsersReMatch_digits_false h1 h2⟩
    rw [getUserReMatch, hcap]
    rfl
  have hsg : storeGet (storePut store ⟨S, T⟩) S = some ⟨S, T⟩ :=
    storeGet_storePut_self store ⟨S, T⟩
  rw [hstore]
  simp [serveHTTP, hget, getHandler, findStringSubmatch, hcap, hsg]

/-- Witness for the amended C1 at `S = "7"`, `T = "a"`. -/
theorem c1_roundtrip_amended_witness :
    (['7'] : List Char) ≠ []
    ∧ (['7'] : List Char).all Char.isDigit = true
    ∧ (serveHTTP methodGET (usersSlashPath ++ ['7']) none
        ((serveHTTP methodPOST usersPath (some ⟨['7'], ['a']⟩) []).store)).events
      = [WriteEv.status 200, WriteEv.write (Body.userJson ⟨['7'], ['a']⟩)] :=
  ⟨by decide, by decide,
    c1_roundtrip_amended ['7'] ['a'] [] (by decide) (by decide)⟩

/-- C2: a request dispatched to Create whose body fails to decode is
answered 400 with the bad-request bytes, and the store mapping is exactly
the same afterwards, so a subsequent List returns the same records. -/
theorem c2_create_error_atomic (m p : List Char) (store : Store)
    (h : route m p = Route.create) :
    (serveHTTP m p none store).events = badRequestEvents
    ∧ (serveHTTP m p none store).store = store
    ∧ listHandler ((serveHTTP m p none store).store) = listHandler store := by
  simp only [serveHTTP, h]
  exact ⟨rfl, rfl, rfl⟩

/-- Witness for C2 on `POST /users` with an undecodable body. -/
theorem c2_create_error_atomic_witness :
    (serveHTTP methodPOST usersPath none
        [(['1'], ⟨['1'], ['a']⟩)]).events = badRequestEvents
    ∧ (serveHTTP methodPOST usersPath none
        [(['1'], ⟨['1'], ['a']⟩)]).store = [(['1'], ⟨['1'], ['a']⟩)] :=
  ⟨(c2_create_error_atomic methodPOST usersPath
      [(['1'], ⟨['1'], ['a']⟩)] (by decide)).1,
    (c2_create_error_atomic methodPOST usersPath
      [(['1'], ⟨['1'], ['a']⟩)] (by decide)).2.1⟩

/-- C3, counterexample: GET `/users//` is neither `/users` nor `/users/`,
yet the dispatcher sends it to the List handler (200), not to the 404
arm, because `^\/users[\/]*$` allows any number of trailing slashes. -/
theorem c3_routing_counterexample :
    route methodGET ['/', 'u', 's', 'e', 'r', 's', '/', '/'] = Route.list
    ∧ ['/', 'u', 's', 'e', 'r', 's', '/', '/'] ≠ usersPath
    ∧ ['/', 'u', 's', 'e', 'r', 's', '/', '/'] ≠ usersSlashPath
    ∧ (serveHTTP methodGET ['/', 'u', 's', 'e', 'r', 's', '/', '/']
        none []).events
      = [WriteEv.status 200, WriteEv.write (Body.usersJson [])] := by
  decide

/-- C3 (amended): the dispatcher invokes List exactly on GET with path
`/users` plus zero or more trailing slashes, Get exactly on GET with path
`/users/` plus one or more decimal digits, Create exactly on POST with
path `/users` plus zero or more trailing slashes, and writes the 404
not-found response for every other method/path combination. -/
theorem c3_routing_amended (m p : List Char) :
    (route m p = Route.list ↔
      m = methodGET ∧ ∃ n, p = usersPath ++ List.replicate n '/')
    ∧ (route m p = Route.get ↔
      m = methodGET ∧ ∃ ds, ds ≠ [] ∧ ds.all Char.isDigit = true ∧
        p = usersSlashPath ++ ds)
    ∧ (route m p = Route.create ↔
      m = methodPOST ∧ ∃ n, p = usersPath ++ List.replicate n '/')
    ∧ (∀ b store, route m p = Route.notFound →
        serveHTTP m p b store
          = { events := notFoundEvents, store := store, aborted := false }) := by
  refine ⟨?_, ?_, ?_, ?_⟩
  · rw [route_eq_list_iff]
    constructor
    · rintro ⟨h1, h2⟩
      exact ⟨h1, (listUsersReMatch_iff p).mp h2⟩
    · rintro ⟨h1, h2⟩
      exact ⟨h1, (listUsersReMatch_iff p).mpr h2⟩
  · rw [route_eq_get_iff]
    constructor
    · rintro ⟨h1, h2, _⟩
      rw [getUserReMatch, Option.isSome_iff_exists] at h2
      obtain ⟨ds, hds⟩ := h2
      obtain ⟨ha, hb, hc⟩ := (getUserReCapture_eq_some_iff p ds).mp hds
      exact ⟨h1, ds, ha, hb, hc⟩
    · rintro ⟨h1, ds, ha, hb, rfl⟩
      refine ⟨h1, ?_, listUsersReMatch_digits_false ha hb⟩
      rw [getUserReMatch, (getUserReCapture_eq_some_iff _ _).mpr ⟨ha, hb, rfl⟩]
      rfl
  · rw [route_eq_create_iff]
    constructor
    · rintro ⟨h1, h2⟩
      rw [createUserReMatch_eq_list] at h2
      exact ⟨h1, (listUsersReMatch_iff p).mp h2⟩
    · rintro ⟨h1, h2⟩
      refine ⟨h1, ?_⟩
      rw [createUserReMatch_eq_list]
      exact (listUsersReMatch_iff p).mpr h2
  · intro b store h
    simp only [serveHTTP, h]

/-- Witness for the amended C3: `/users//` routes to List, and an
unmatched pair gets the 404 response. -/
theorem c3_routing_amended_witness :
    route methodGET (usersPath ++ List.replicate 2 '/') = Route.list
    ∧ serveHTTP methodPOST ['/', 'x'] none []
      = { events := notFoundEvents, store := [], aborted := false } :=
  ⟨(c3_routing_amended methodGET (usersPath ++ List.replicate 2 '/')).1.mpr
      ⟨rfl, 2, rfl⟩,
    (c3_routing_amended methodPOST ['/', 'x']).2.2.2 none [] (by decide)⟩

/-- C4: every request handled through the dispatcher yields exactly one
status write followed by exactly one body write and never aborts; in
particular nothing is written after an error response. -/
theorem c4_single_response (m p : List Char) (b : Option user) (store : Store) :
    ∃ c bd, (serveHTTP m p b store).events
        = [WriteEv.status c, WriteEv.write bd]
      ∧ (serveHTTP m p b store).aborted = false := by
  cases hr : route m p with
  | list =>
    exact ⟨200, Body.usersJson (storeValues store),
      by simp [serveHTTP, hr, listHandler], by simp [serveHTTP, hr, listHandler]⟩
  | get =>
    obtain ⟨h1, h2, h3⟩ := (route_eq_get_iff m p).mp hr
    rw [getUserReMatch, Option.isSome_iff_exists] at h2
    obtain ⟨ds, hds⟩ := h2
    cases hsg : storeGet store ds with
    | none =>
      refine ⟨404, Body.raw notFoundBody, ?_, ?_⟩ <;>
        simp [serveHTTP, hr, getHandler, findStringSubmatch, hds, hsg,
          notFoundEvents]
    | some u =>
      refine ⟨200, Body.userJson u, ?_, ?_⟩ <;>
        simp [serveHTTP, hr, getHandler, findStringSubmatch, hds, hsg]
  | create =>
    cases b with
    | none =>
      refine ⟨400, Body.raw badRequestBody, ?_, ?_⟩ <;>
        simp [serveHTTP, hr, createHandler, badRequestEvents]
    | some u =>
      refine ⟨200, Body.userJson u, ?_, ?_⟩ <;>
        simp [serveHTTP, hr, createHandler]
  | notFound =>
    refine ⟨404, Body.raw notFoundBody, ?_, ?_⟩ <;>
      simp [serveHTTP, hr, notFoundEvents]

/-- C5: when the Get handler runs on a path for which submatch extraction
yields fewer than two groups, it writes the not-found response and, for
want of a `return`, continues on to the lookup, where indexing the match
result at 1 is out of range (the run aborts in a runtime panic). -/
theorem c5_get_capture_failure (p : List Char) (store : Store)
    (h : (findStringSubmatch p).length < 2) :
    getHandler p store
      = { events := notFoundEvents, store := store, aborted := true } := by
  have hnil : findStringSubmatch p = [] := by
    rw [findStringSubmatch] at h ⊢
    cases hc : getUserReCapture p with
    | none => rfl
    | some ds =>
      rw [hc] at h
      simp at h
  simp [getHandler, hnil]

/-- Witness for C5 on the path `/x`. -/
theorem c5_get_capture_failure_witness :
    (findStringSubmatch ['/', 'x']).length < 2
    ∧ getHandler ['/', 'x'] []
      = { events := notFoundEvents, store := [], aborted := true } :=
  ⟨by decide, c5_get_capture_failure ['/', 'x'] [] (by decide)⟩

/-- C6: creating `{id: S, name: T1}` and then `{id: S, name: T2}` on a
store with distinct keys leaves exactly one entry at key `S`, and lookup
at `S` returns the second record (last write wins, no duplicate). -/
theorem c6_overwrite (S T1 T2 : List Char) (store : Store) (h : StoreWF store) :
    (((createHandler (some ⟨S, T2⟩)
        ((createHandler (some ⟨S, T1⟩) store).store)).store).filter
        (fun e => e.1 == S)).length = 1
    ∧ storeGet ((createHandler (some ⟨S, T2⟩)
        ((createHandler (some ⟨S, T1⟩) store).store)).store) S
      = some ⟨S, T2⟩ := by
  constructor
  · exact filter_key_storePut _ ⟨S, T2⟩ (storeWF_storePut store ⟨S, T1⟩ h)
  · exact storeGet_storePut_self _ ⟨S, T2⟩

/-- Witness for C6 at `S = "1"`, `T1 = "a"`, `T2 = "b"`. -/
theorem c6_overwrite_witness :
    StoreWF ([] : Store)
    ∧ storeGet ((createHandler (some ⟨['1'], ['b']⟩)
        ((createHandler (some ⟨['1'], ['a']⟩) ([] : Store)).store)).store) ['1']
      = some ⟨['1'], ['b']⟩ :=
  ⟨by constructor,
    (c6_overwrite ['1'] ['a'] ['b'] [] (by constructor)).2⟩

/-- C7, counterexample: GET `/users/999` on a store without that key does
answer 404, but the body bytes are `{"error" : "not found"}` — with a
space on each side of the colon — not the claimed exact bytes
`{"error":"not found"}`. -/
theorem c7_notfound_counterexample :
    (serveHTTP methodGET ['/', 'u', 's', 'e', 'r', 's', '/', '9', '9', '9']
        none []).events
      = [WriteEv.status 404, WriteEv.write (Body.raw notFoundBody)]
    ∧ notFoundBody ≠ ("\x7b\"error\":\"not found\"\x7d").toList := by
  constructor
  · decide
  · decide

/-- C7 (amended): for every nonempty digit key with no record in the
store, GET of `/users/` followed by that key returns 404 with body
exactly the bytes `{"error" : "not found"}` (spaces around the colon, as
the source writes them). -/
theorem c7_notfound_amended (ds : List Char) (store : Store)
    (h1 : ds ≠ []) (h2 : ds.all Char.isDigit = true)
    (h3 : storeGet store ds = none) :
    (serveHTTP methodGET (usersSlashPath ++ ds) none store).events
      = [WriteEv.status 404, WriteEv.write (Body.raw notFoundBody)] := by
  have hcap : getUserReCapture (usersSlashPath ++ ds) = some ds :=
    (getUserReCapture_eq_some_iff _ _).mpr ⟨h1, h2, rfl⟩
  have hget : route methodGET (usersSlashPath ++ ds) = Route.get := by
    refine (route_eq_get_iff _ _).mpr
      ⟨rfl, ?_, listUsersReMatch_digits_false h1 h2⟩
    rw [getUserReMatch, hcap]
    rfl
  simp [serveHTTP, hget, getHandler, findStringSubmatch, hcap, h3,
    notFoundEvents]

/-- Witness for the amended C7 at key `9` and the empty store. -/
theorem c7_notfound_amended_witness :
    (['9'] : List Char) ≠ []
    ∧ (['9'] : List Char).all Char.isDigit = true
    ∧ storeGet [] ['9'] = none
    ∧ (serveHTTP methodGET (usersSlashPath ++ ['9']) none []).events
      = [WriteEv.status 404, WriteEv.write (Body.raw notFoundBody)] :=
  ⟨by decide, by decide, by decide,
    c7_notfound_amended ['9'] [] (by decide) (by decide) (by decide)⟩

/-- C8: the 500 helper writes status 500 with the literal body
`{"error" : "interval server error"}`: its error string is the misspelled
"interval server error", not the documented "internal server error", so
the error-body vocabulary of the spec is violated by the code. -/
theorem c8_error_vocabulary_bug :
    internalServerErrorEvents
      = [WriteEv.status 500, WriteEv.write (Body.raw internalServerErrorBody)]
    ∧ internalServerErrorBody
      = ("\x7b\"error\" : \"interval server error\"\x7d").toList
    ∧ internalServerErrorBody
      ≠ ("\x7b\"error\" : \"internal server error\"\x7d").toList := by
  refine ⟨rfl, rfl, ?_⟩
  decide

/-- C9, counterexample: the List handler's access trace begins with a read
of the mapping's size (for the slice capacity) before `RLock`, so it
violates the all-accesses-under-the-lock discipline. -/
theorem c9_lock_counterexample :
    lockDisciplineOk listStoreTrace = false
    ∧ listStoreTrace.head? = some StoreEv.readLen := by
  decide

/-- C9 (amended): Get and Create access the mapping only under the proper
lock and List's iteration happens wholly under the shared lock, but List
first reads the mapping's size before acquiring the shared lock. -/
theorem c9_lock_amended :
    lockDisciplineOk getStoreTrace = true
    ∧ lockDisciplineOk createStoreTrace = true
    ∧ listStoreTrace = StoreEv.readLen :: listStoreTrace.tail
    ∧ lockDisciplineOk listStoreTrace.tail = true
    ∧ lockDisciplineOk listStoreTrace = false := by
  decide

/-- C10: a record whose id is empty or contains a non-digit character is
stored by Create at that id, but the Get route never captures that key
from any request path, so the record at that key is unreachable through
Get; it does appear among the values the List handler serializes. -/
theorem c10_nondigit_only_listable (S T : List Char) (store : Store)
    (h : S = [] ∨ ¬ S.all Char.isDigit = true) :
    storeGet ((createHandler (some ⟨S, T⟩) store).store) S = some ⟨S, T⟩
    ∧ (∀ p ds, getUserReCapture p = some ds → ds ≠ S)
    ∧ (⟨S, T⟩ : user) ∈ storeValues ((createHandler (some ⟨S, T⟩) store).store)
    ∧ (listHandler ((createHandler (some ⟨S, T⟩) store).store)).events
      = [WriteEv.status 200, WriteEv.write (Body.usersJson
          (storeValues ((createHandler (some ⟨S, T⟩) store).store)))] := by
  refine ⟨storeGet_storePut_self store ⟨S, T⟩, ?_,
    mem_storeValues_storePut store ⟨S, T⟩, rfl⟩
  intro p ds hds hEq
  obtain ⟨ha, hb, _⟩ := (getUserReCapture_eq_some_iff p ds).mp hds
  subst hEq
  rcases h with h | h
  · exact ha h
  · exact h hb

/-- Witness for C10 at `S = "x"`, `T = "y"`. -/
theorem c10_nondigit_only_listable_witness :
    ((['x'] : List Char) = [] ∨ ¬ (['x'] : List Char).all Char.isDigit = true)
    ∧ storeGet ((createHandler (some ⟨['x'], ['y']⟩) []).store) ['x']
      = some ⟨['x'], ['y']⟩ :=
  ⟨by decide,
    (c10_nondigit_only_listable ['x'] ['y'] [] (by decide)).1⟩
